import Mathlib

/-!
Verification development for the Wavetable Tools (WTT) codec and
cycle-transform engine (`src/wtt.py`, class `Wavetable`).

Python byte strings are modelled as `List Nat` whose entries are bytes
(< 256 by construction at every producer).  Python `None` becomes
`Option.none`.  Operations that can raise an exception return `Option`
(`none` = the Python call raises and the surrounding programme aborts).
Machine-level subtleties that the source relies on are modelled
explicitly: little-endian field packing (`toBytesLE` / `fromBytesLE`,
with `int.to_bytes` overflow a crash), Python's *true* division inside
`int(a / b)` (`pyIntDiv`, which rounds `a / b` to the nearest IEEE-754
double before truncating), and `int()` applied to ASCII byte strings
(`pyIntOfBytes`).
-/

/-- `v.to_bytes n 'little'` without the range check: little-endian byte list. -/
def toBytesLE : Nat → Nat → List Nat
  | 0, _ => []
  | n + 1, v => v % 256 :: toBytesLE n (v / 256)

/-- `int.from_bytes(bs, 'little')`.  Entries are bytes (< 256) at every call site. -/
def fromBytesLE : List Nat → Nat
  | [] => 0
  | b :: bs => b + 256 * fromBytesLE bs

/-- Round `num / den` to the nearest integer, ties to even (IEEE-754 default). -/
def rnde (num den : Nat) : Nat :=
  let q := num / den
  let r := num % den
  if den < 2 * r then q + 1 else if 2 * r < den then q else q + q % 2

/-- Fuel-driven binary logarithm (⌊log2 n⌋ for n ≥ 1), kernel-reducible. -/
def log2fuel : Nat → Nat → Nat
  | 0, _ => 0
  | f + 1, n => if n < 2 then 0 else log2fuel f (n / 2) + 1

/-- ⌊log2 n⌋ for n ≥ 1 (0 for n = 0). -/
def flog2 (n : Nat) : Nat := log2fuel n n

/-- Python `int(a / b)` for nonnegative integers `a`, `b ≠ 0`: the quotient is
computed as a correctly rounded IEEE-754 double (round to nearest, ties to
even) and then truncated.  The double is `m · 2^(e-52)` with `e = ⌊log2(a/b)⌋`
and `m` the rounded 53-bit significand; for `a < b` the result is 1 exactly
when `a/b ≥ 1 - 2^-54` and 0 otherwise.  (Exponent overflow past 2^1024,
impossible at the call sites below, is not modelled.) -/
def pyIntDiv (a b : Nat) : Nat :=
  if a < b then
    (if (2 ^ 54 - 1) * b ≤ 2 ^ 54 * a then 1 else 0)
  else
    let e := flog2 (a / b)
    if e ≤ 52 then rnde (a * 2 ^ (52 - e)) b / 2 ^ (52 - e)
    else rnde a (b * 2 ^ (e - 52)) * 2 ^ (e - 52)

/-- ASCII decimal digits of `n`, most significant first (fuel-driven so that
the kernel can evaluate it; the fuel `n + 1` always suffices). -/
def natDigitsAux : Nat → Nat → List Nat
  | 0, _ => []
  | f + 1, n => if n < 10 then [48 + n] else natDigitsAux f (n / 10) ++ [48 + n % 10]

/-- The ANSI/ASCII encoding of `f'{n}'` for a nonnegative integer `n`. -/
def natDecimal (n : Nat) : List Nat := natDigitsAux (n + 1) n

/-- ASCII whitespace accepted (and stripped) by Python `int()`. -/
def isSpaceByte (b : Nat) : Bool := b = 32 || b = 9 || b = 10 || b = 13 || b = 11 || b = 12

/-- ASCII decimal digit. -/
def isDigitByte (b : Nat) : Bool := 48 ≤ b && b ≤ 57

/-- Value of an all-digit ASCII byte list. -/
def digitsValue (l : List Nat) : Nat := l.foldl (fun a b => a * 10 + (b - 48)) 0

/-- Python `int(bs)` on a byte string: strip surrounding whitespace, then the
remainder must be a nonempty digit run.  `none` = `ValueError` (the call
raises).  Modelled for unsigned decimal literals, which is the only shape the
encoder under verification ever produces. -/
def pyIntOfBytes (l : List Nat) : Option Nat :=
  let core := ((l.dropWhile fun b => isSpaceByte b).reverse.dropWhile fun b => isSpaceByte b).reverse
  if core ≠ [] ∧ core.all (fun b => isDigitByte b) then some (digitsValue core) else none

/-- Python truthiness of an optional integer attribute (`None` and `0` are falsy). -/
def truthyNat (o : Option Nat) : Bool :=
  match o with
  | none => false
  | some n => n ≠ 0

/-- Python truthiness of an optional byte string (`None` and `b''` are falsy). -/
def truthyBytes (o : Option (List Nat)) : Bool :=
  match o with
  | none => false
  | some [] => false
  | some (_ :: _) => true

/-- The in-memory Wavetable Record (attributes of class `Wavetable`).
`data_samples`, `wave_count` and `wave_size` may be Python `None`. -/
structure Wavetable where
  data_samples : Option (List Nat)
  fmt_audio_format : Nat
  fmt_bits_p_sample : Nat
  fmt_bytes_p_block : Nat
  fmt_bytes_p_sec : Nat
  fmt_channels : Nat
  fmt_sample_rate : Nat
  wave_count : Option Nat
  wave_interp : Nat
  wave_size : Option Nat
  wave_vendor : List Nat
deriving DecidableEq, Repr

/-- `b'wavetable (wavetabletools)'`, the default vendor comment. -/
def defaultVendor : List Nat :=
  [119, 97, 118, 101, 116, 97, 98, 108, 101, 32, 40,
   119, 97, 118, 101, 116, 97, 98, 108, 101, 116, 111, 111, 108, 115, 41]

/-- `Wavetable.__init__` with an empty `init_defaults` dictionary. -/
def Wavetable.initDefaults : Wavetable where
  data_samples := none
  fmt_audio_format := 1
  fmt_bits_p_sample := 16
  fmt_bytes_p_block := 2
  fmt_bytes_p_sec := 176400
  fmt_channels := 1
  fmt_sample_rate := 88200
  wave_count := none
  wave_interp := 0
  wave_size := some 2048
  wave_vendor := defaultVendor

namespace Wavetable

/-- `calc_fmt_bytes_p_block`: `int(channels * bits_p_sample / 8)` (true division). -/
def calc_fmt_bytes_p_block (wt : Wavetable) : Nat :=
  pyIntDiv (wt.fmt_channels * wt.fmt_bits_p_sample) 8

/-- `calc_fmt_bytes_p_sec`: `int(sample_rate * bytes_p_block)` (integer product). -/
def calc_fmt_bytes_p_sec (wt : Wavetable) : Nat :=
  wt.fmt_sample_rate * wt.fmt_bytes_p_block

/-- `calc_wave_count`: `int(len(data_samples) / (wave_size * fmt_bytes_p_block))`.
`none` = the call raises (`len(None)`, `None` arithmetic, or division by zero). -/
def calc_wave_count (wt : Wavetable) : Option Nat :=
  match wt.data_samples, wt.wave_size with
  | some d, some w =>
    if w * wt.fmt_bytes_p_block = 0 then none
    else some (pyIntDiv d.length (w * wt.fmt_bytes_p_block))
  | _, _ => none

/-- `set_data`: each `some` argument overwrites the attribute; with
`recalc=True` and any of the four listed arguments *truthy* (Python `any`),
the derived fields are recomputed in source order (block, then bytes/sec,
then wave count).  The vendor argument stands for the already ANSI-encoded
bytes of the Python string.  `none` result = `calc_wave_count` raised. -/
def set_data (wt : Wavetable)
    (fmt_audio_format fmt_bits_p_sample fmt_bytes_p_block fmt_bytes_p_sec
     fmt_channels fmt_sample_rate wave_count wave_interp wave_size : Option Nat)
    (wave_vendor : Option (List Nat)) (recalc : Bool) : Option Wavetable :=
  let wt1 : Wavetable :=
    { wt with
      fmt_audio_format := fmt_audio_format.getD wt.fmt_audio_format
      fmt_bits_p_sample := fmt_bits_p_sample.getD wt.fmt_bits_p_sample
      fmt_bytes_p_block := fmt_bytes_p_block.getD wt.fmt_bytes_p_block
      fmt_bytes_p_sec := fmt_bytes_p_sec.getD wt.fmt_bytes_p_sec
      fmt_channels := fmt_channels.getD wt.fmt_channels
      fmt_sample_rate := fmt_sample_rate.getD wt.fmt_sample_rate
      wave_count := if wave_count.isSome then wave_count else wt.wave_count
      wave_interp := wave_interp.getD wt.wave_interp
      wave_size := if wave_size.isSome then wave_size else wt.wave_size
      wave_vendor := wave_vendor.getD wt.wave_vendor }
  if recalc ∧ (truthyNat fmt_bits_p_sample || truthyNat fmt_channels ||
               truthyNat fmt_sample_rate || truthyNat wave_size) then
    let wt2 := { wt1 with fmt_bytes_p_block := wt1.calc_fmt_bytes_p_block }
    let wt3 := { wt2 with fmt_bytes_p_sec := wt2.calc_fmt_bytes_p_sec }
    (wt3.calc_wave_count).map fun c => { wt3 with wave_count := some c }
  else
    some wt1

/-! ### WT codec -/

/-- WT flag helper methods (`is_sample` .. `is_full_range`). -/
def is_sample (flags : Nat) : Bool := flags &&& 1 ≠ 0

/-- `flags & 2 != 0`. -/
def is_looped (flags : Nat) : Bool := flags &&& 2 ≠ 0

/-- `flags & 4 != 0`. -/
def is_int16 (flags : Nat) : Bool := flags &&& 4 ≠ 0

/-- `flags & 8 != 0`. -/
def is_full_range (flags : Nat) : Bool := flags &&& 8 ≠ 0

/-- `wt_parse_flags`: returns the mutated record and the
`stop_importing` flag (`true` when the file must be skipped). -/
def wt_parse_flags (wt : Wavetable) (flags : Nat) : Wavetable × Bool :=
  if is_sample flags then (wt, true)
  else if is_looped flags then (wt, true)
  else ({ wt with fmt_bits_p_sample := if is_int16 flags then 16 else 32 }, false)

/-- `wt_import` on the full byte contents of a `.wt` file: fixed-offset
reads (wave size at 4..8, wave count at 8..10, flags at 10..12, rest
is sample data), then `set_data(recalc=True, fmt_audio_format=1,
fmt_channels=1, fmt_sample_rate=88200)`.  Result: `none` = the call
raises; `some (r, true)` = unsupported format, file skipped (record
partially mutated); `some (r, false)` = success. -/
def wt_import (wt : Wavetable) (file : List Nat) : Option (Wavetable × Bool) :=
  let ws := fromBytesLE ((file.drop 4).take 4)
  let cnt := fromBytesLE ((file.drop 8).take 2)
  let flags := fromBytesLE ((file.drop 10).take 2)
  let wt1 := { wt with wave_size := some ws, wave_count := some cnt }
  match wt_parse_flags wt1 flags with
  | (wt2, true) => some (wt2, true)
  | (wt2, false) =>
    let wt3 := { wt2 with data_samples := some (file.drop 12) }
    (wt3.set_data (some 1) none none none (some 1) (some 88200)
        none none none none true).map fun r => (r, false)

/-- `wt_set_flag`: synthesize the WT flags value from the caller-supplied
booleans and the record's bit depth. -/
def wt_set_flag (wt : Wavetable) (is_s is_l is_fr : Bool) : Nat :=
  let flag := 0
  let flag := if is_s then flag ||| 1 else flag
  let flag := if is_l then flag ||| 2 else flag
  if wt.fmt_bits_p_sample = 16 then
    let flag := flag ||| 4
    if is_fr then flag ||| 8 else flag
  else flag

/-- Outcome of `wt_write`: `failed` = a validation warning was logged and
the function returned before opening the file (nothing written);
`crashed out` = an exception was raised mid-write with `out` already on
disk; `ok out` = the complete file `out` was written. -/
inductive WtWriteResult where
  | failed : WtWriteResult
  | crashed : List Nat → WtWriteResult
  | ok : List Nat → WtWriteResult
deriving DecidableEq, Repr

/-- `wt_write`: validate `fmt_channels == 1` and `wave_size` a nonzero power
of two (via the `ws & (ws - 1)` trick), then emit tag, wave size (4 bytes),
wave count (2 bytes), flags (2 bytes) and the raw sample buffer.  A `None`
wave size raises before the file is opened; `to_bytes` overflow or a `None`
wave count / sample buffer raises mid-write. -/
def wt_write (wt : Wavetable) (is_s is_l is_fr : Bool) : WtWriteResult :=
  if wt.fmt_channels ≠ 1 then .failed
  else
    match wt.wave_size with
    | none => .crashed []      -- TypeError in `ws & (ws - 1)` before `open`
    | some w =>
      if w &&& (w - 1) ≠ 0 ∨ w = 0 then .failed
      else
        let out := [118, 97, 119, 116]
        if 2 ^ 32 ≤ w then .crashed out
        else
          let out := out ++ toBytesLE 4 w
          match wt.wave_count with
          | none => .crashed out
          | some c =>
            if 2 ^ 16 ≤ c then .crashed out
            else
              let out := out ++ toBytesLE 2 c
              let out := out ++ toBytesLE 2 (wt.wt_set_flag is_s is_l is_fr)
              match wt.data_samples with
              | none => .crashed out
              | some d => .ok (out ++ d)

/-! ### WAVE codec -/

/-- Chunk-id recognisers (`bytes.fromhex` literals from the source). -/
def is_riff (chunk_id : List Nat) : Bool := chunk_id = [82, 73, 70, 70]

/-- `b'fmt '`. -/
def is_fmt (chunk_id : List Nat) : Bool := chunk_id = [102, 109, 116, 32]

/-- `b'clm '`. -/
def is_clm (chunk_id : List Nat) : Bool := chunk_id = [99, 108, 109, 32]

/-- `b'data'`. -/
def is_data (chunk_id : List Nat) : Bool := chunk_id = [100, 97, 116, 97]

end Wavetable

/-- An open binary file being read: the full contents and the cursor. -/
structure ByteStream where
  buf : List Nat
  pos : Nat
deriving DecidableEq, Repr

/-- `open_file.read(k)`: up to `k` bytes from the cursor; the cursor
advances by the number of bytes actually read. -/
def sread (s : ByteStream) (k : Nat) : List Nat × ByteStream :=
  ((s.buf.drop s.pos).take k, ⟨s.buf, s.pos + min k (s.buf.length - s.pos)⟩)

/-- `open_file.seek(n, os.SEEK_CUR)` for `n ≥ 0` (seeking past EOF is legal). -/
def sseek (s : ByteStream) (n : Nat) : ByteStream := ⟨s.buf, s.pos + n⟩

/-- `open_file.seek(-3, os.SEEK_CUR)`; the caller guarantees `pos ≥ 4`. -/
def sback3 (s : ByteStream) : ByteStream := ⟨s.buf, s.pos - 3⟩

namespace Wavetable

/-- `wav_parse_chunk`: dispatch on a 4-byte chunk id.  Result: `none` = an
exception was raised (`int()` on non-digits); otherwise the mutated record,
the advanced stream, and the `stop_importing` flag. -/
def wav_parse_chunk (wt : Wavetable) (s : ByteStream) (chunk_id : List Nat) :
    Option (Wavetable × ByteStream × Bool) :=
  if is_riff chunk_id then
    let s1 := sseek s 4
    let (wv, s2) := sread s1 4
    if wv ≠ [87, 65, 86, 69] then some (wt, s2, true) else some (wt, s2, false)
  else if is_fmt chunk_id then
    let s1 := sseek s 4
    let (b1, s2) := sread s1 2
    let (b2, s3) := sread s2 2
    let (b3, s4) := sread s3 4
    let (b4, s5) := sread s4 4
    let (b5, s6) := sread s5 2
    let (b6, s7) := sread s6 2
    some ({ wt with
              fmt_audio_format := fromBytesLE b1
              fmt_channels := fromBytesLE b2
              fmt_sample_rate := fromBytesLE b3
              fmt_bytes_p_sec := fromBytesLE b4
              fmt_bytes_p_block := fromBytesLE b5
              fmt_bits_p_sample := fromBytesLE b6 }, s7, false)
  else if is_clm chunk_id then
    let (szb, s1) := sread s 4
    let (cd, s2) := sread s1 (fromBytesLE szb)
    match pyIntOfBytes ((cd.drop 3).take 4), pyIntOfBytes ((cd.drop 8).take 1) with
    | some w, some ip =>
      some ({ wt with wave_size := some w, wave_interp := ip, wave_vendor := cd.drop 17 },
            s2, false)
    | _, _ => none
  else if is_data chunk_id then
    let (szb, s1) := sread s 4
    if truthyBytes wt.data_samples then
      some (wt, s1, false)   -- second data tag: size consumed, payload skipped
    else
      let (payload, s2) := sread s1 (fromBytesLE szb)
      some ({ wt with data_samples := some payload }, s2, false)
  else
    some (wt, sback3 s, false)

/-- The chunk loop of `wav_import`.  Fuel only bounds the iteration count;
`buf.length + 1` always suffices because the cursor strictly advances. -/
def wavImportLoop : Nat → Wavetable → ByteStream → Option (Wavetable × Bool)
  | 0, _, _ => none
  | fuel + 1, wt, s =>
    let (cid, s1) := sread s 4
    if cid.length ≠ 4 then
      (wt.calc_wave_count).map fun c => ({ wt with wave_count := some c }, false)
    else
      match wav_parse_chunk wt s1 cid with
      | none => none
      | some (wt2, _, true) => some (wt2, true)
      | some (wt2, s2, false) => wavImportLoop fuel wt2 s2

/-- `wav_import` on the full byte contents of a `.wav` file.  `none` = the
call raises; `some (r, true)` = unsupported format, file skipped;
`some (r, false)` = success (with `wave_count` recalculated at EOF). -/
def wav_import (wt : Wavetable) (file : List Nat) : Option (Wavetable × Bool) :=
  wavImportLoop (file.length + 1) wt ⟨file, 0⟩

/-- The clm payload written by `wav_write`:
`f'<!>{wave_size} {wave_interp}0000000 '` + vendor bytes, zero-padded to an
even length.  A `None` wave size prints as the four letters `None`. -/
def clmData (wt : Wavetable) : List Nat :=
  let wsBytes := match wt.wave_size with
    | some w => natDecimal w
    | none => [78, 111, 110, 101]
  let clmString := [60, 33, 62] ++ wsBytes ++ [32] ++ natDecimal wt.wave_interp ++
    [48, 48, 48, 48, 48, 48, 48, 32]
  let raw := clmString ++ wt.wave_vendor
  if raw.length % 2 = 1 then raw ++ [0] else raw

/-- `wav_write`: riff, fmt, clm and data chunks; the RIFF size field is
backpatched to total length − 8 (modelled directly).  `none` = the call
raises (a `None` sample buffer, or an `int.to_bytes` overflow). -/
def wav_write (wt : Wavetable) : Option (List Nat) :=
  match wt.data_samples with
  | none => none
  | some d =>
    let clm := wt.clmData
    if wt.fmt_audio_format < 2 ^ 16 ∧ wt.fmt_channels < 2 ^ 16 ∧
       wt.fmt_sample_rate < 2 ^ 32 ∧ wt.fmt_bytes_p_sec < 2 ^ 32 ∧
       wt.fmt_bytes_p_block < 2 ^ 16 ∧ wt.fmt_bits_p_sample < 2 ^ 16 ∧
       clm.length < 2 ^ 32 ∧ d.length < 2 ^ 32 ∧ 44 + clm.length + d.length < 2 ^ 32 then
      some ([82, 73, 70, 70] ++ toBytesLE 4 (44 + clm.length + d.length) ++ [87, 65, 86, 69] ++
        [102, 109, 116, 32] ++ [16, 0, 0, 0] ++
        toBytesLE 2 wt.fmt_audio_format ++ toBytesLE 2 wt.fmt_channels ++
        toBytesLE 4 wt.fmt_sample_rate ++ toBytesLE 4 wt.fmt_bytes_p_sec ++
        toBytesLE 2 wt.fmt_bytes_p_block ++ toBytesLE 2 wt.fmt_bits_p_sample ++
        [99, 108, 109, 32] ++ toBytesLE 4 clm.length ++ clm ++
        [100, 97, 116, 97] ++ toBytesLE 4 d.length ++ d)
    else none

/-! ### Cycle transforms -/

end Wavetable

/-- `[l[i:i+step] for i in range(0, len(l), step)]` (fuel-driven; the fuel
`l.length` always suffices for `step ≥ 1`). -/
def chunkFuel : Nat → Nat → List Nat → List (List Nat)
  | 0, _, _ => []
  | f + 1, step, l => if l = [] then [] else l.take step :: chunkFuel f step (l.drop step)

/-- Consecutive `step`-sized slices of `l`, the last possibly shorter. -/
def pyChunks (step : Nat) (l : List Nat) : List (List Nat) := chunkFuel l.length step l

/-- The dedup scan of `deduplicator`: keep each cycle exactly when it differs
from the most recently kept one (`lastKept`). -/
def dedupAux : List (List Nat) → List Nat → List (List Nat)
  | [], _ => []
  | c :: cs, lastKept => if c = lastKept then dedupAux cs lastKept else c :: dedupAux cs c

namespace Wavetable

/-- `slicer`: default a `None` wave size to 2048 (mutating the record), then
slice the sample buffer into cycles of `wave_size * fmt_bytes_p_block` bytes.
`none` = the call raises (`len(None)`, or `range` step 0). -/
def slicer (wt : Wavetable) : Option (Wavetable × List (List Nat)) :=
  let w := wt.wave_size.getD 2048
  let wt1 := { wt with wave_size := some w }
  match wt.data_samples with
  | none => none
  | some d =>
    let step := w * wt.fmt_bytes_p_block
    if step = 0 then none else some (wt1, pyChunks step d)

/-- `deduplicator`: slice, scan for adjacent duplicates, and either report
"no duplicates" (`true`, no further mutation) or replace the sample buffer
with the kept cycles, reset `wave_interp` to 0 and set `wave_count` to the
kept count.  `none` = the call raises (slicing failed, or `cycles_all[0]`
on an empty slice list). -/
def deduplicator (wt : Wavetable) : Option (Wavetable × Bool) :=
  match wt.slicer with
  | none => none
  | some (_, []) => none          -- IndexError: cycles_all[0]
  | some (wt1, c0 :: rest) =>
    let kept := c0 :: dedupAux rest c0
    if (c0 :: rest).length = kept.length then some (wt1, true)
    else
      some ({ wt1 with
                data_samples := some kept.flatten
                wave_interp := 0
                wave_count := some kept.length }, false)

end Wavetable

/-! ### Arithmetic lemmas -/

theorem fromBytesLE_toBytesLE : ∀ (n v : Nat), v < 2 ^ (8 * n) →
    fromBytesLE (toBytesLE n v) = v := by
  intro n
  induction n with
  | zero => intro v hv; interval_cases v; rfl
  | succ n ih =>
    intro v hv
    have hlt : v / 256 < 2 ^ (8 * n) := by
      rw [Nat.div_lt_iff_lt_mul (by norm_num)]
      calc v < 2 ^ (8 * (n + 1)) := hv
        _ = 2 ^ (8 * n) * 256 := by rw [show 8 * (n + 1) = 8 * n + 8 by ring, pow_add]; norm_num
    simp only [toBytesLE, fromBytesLE]
    rw [ih (v / 256) hlt]
    omega

theorem log2fuel_spec : ∀ (f n : Nat), 0 < n → n ≤ f →
    2 ^ log2fuel f n ≤ n ∧ n < 2 ^ (log2fuel f n + 1) := by
  intro f
  induction f with
  | zero => intro n h1 h2; omega
  | succ f ih =>
    intro n h1 h2
    simp only [log2fuel]
    split
    · simpa using (by omega : 1 ≤ n ∧ n < 2)
    · rename_i hn
      have hd1 : 0 < n / 2 := by omega
      have hd2 : n / 2 ≤ f := by omega
      obtain ⟨l, r⟩ := ih (n / 2) hd1 hd2
      constructor
      · calc 2 ^ (log2fuel f (n / 2) + 1) = 2 ^ log2fuel f (n / 2) * 2 := by rw [pow_succ]
          _ ≤ (n / 2) * 2 := Nat.mul_le_mul_right _ l
          _ ≤ n := by omega
      · have hp : 2 ^ (log2fuel f (n / 2) + 1 + 1) = 2 ^ (log2fuel f (n / 2) + 1) * 2 := by
          rw [pow_succ]
        omega

theorem flog2_spec (n : Nat) (h : 0 < n) : 2 ^ flog2 n ≤ n ∧ n < 2 ^ (flog2 n + 1) :=
  log2fuel_spec n n h le_rfl

/-- Python's float division inside `int(a / b)` is exact whenever the
numerator is below 2^53: the truncated correctly rounded quotient is the
floor quotient. -/
theorem pyIntDiv_eq_div (a b : Nat) (hb : 0 < b) (ha : a < 2 ^ 53) :
    pyIntDiv a b = a / b := by
  rcases lt_or_ge a b with hab | hab
  · rw [pyIntDiv, if_pos hab, if_neg, Nat.div_eq_of_lt hab]
    have e53 : (2 : Nat) ^ 53 = 9007199254740992 := by norm_num
    have e54 : (2 : Nat) ^ 54 = 18014398509481984 := by norm_num
    rw [e54]
    omega
  · rw [pyIntDiv, if_neg (by omega)]
    have hq1 : 1 ≤ a / b := (Nat.one_le_div_iff hb).mpr hab
    obtain ⟨hlo, hhi⟩ := flog2_spec (a / b) hq1
    set e := flog2 (a / b) with he
    set q := a / b with hq
    have hq53 : q < 2 ^ 53 := lt_of_le_of_lt (Nat.div_le_self a b) ha
    have he52 : e ≤ 52 := by
      by_contra hcon
      have : (2 : Nat) ^ 53 ≤ 2 ^ e := Nat.pow_le_pow_right (by norm_num) (by omega)
      omega
    rw [if_pos he52]
    set k := 52 - e with hk
    set N := a * 2 ^ k with hN
    -- b is small relative to 2 ^ (k + 1)
    have hbsmall : b < 2 ^ (k + 1) := by
      have h1 : 2 ^ e * b ≤ q * b := Nat.mul_le_mul_right b hlo
      have h2 : q * b ≤ a := Nat.div_mul_le_self a b
      have h3 : 2 ^ e * b < 2 ^ e * 2 ^ (k + 1) := by
        rw [← pow_add]
        have : e + (k + 1) = 53 := by omega
        rw [this]; omega
      exact Nat.lt_of_mul_lt_mul_left h3
    set Q := N / b with hQ
    set R := N % b with hR
    have hNQR : N = b * Q + R := (Nat.div_add_mod N b).symm
    have hRb : R < b := Nat.mod_lt N hb
    have hQlo : q * 2 ^ k ≤ Q := by
      rw [hQ, Nat.le_div_iff_mul_le hb]
      calc q * 2 ^ k * b = q * b * 2 ^ k := by ring
        _ ≤ a * 2 ^ k := Nat.mul_le_mul_right _ (Nat.div_mul_le_self a b)
        _ = N := rfl
    have haqb : a < (q + 1) * b := by
      have h1 := Nat.div_add_mod a b
      have h2 : a % b < b := Nat.mod_lt a hb
      rw [← hq] at h1
      have h3 : (q + 1) * b = b * q + b := by ring
      omega
    have hQhi : Q < (q + 1) * 2 ^ k := by
      rw [hQ, Nat.div_lt_iff_lt_mul hb]
      calc N = a * 2 ^ k := rfl
        _ < ((q + 1) * b) * 2 ^ k :=
          (Nat.mul_lt_mul_right (pow_pos (by norm_num : (0 : Nat) < 2) k)).mpr haqb
        _ = (q + 1) * 2 ^ k * b := by ring
    -- the rounded significand stays below (q + 1) * 2 ^ k
    have hround : rnde N b < (q + 1) * 2 ^ k := by
      simp only [rnde]
      simp only [← hQ, ← hR]
      split
      · rename_i hup
        -- rounding up: exclude Q + 1 = (q + 1) * 2 ^ k
        rcases Nat.lt_or_ge (Q + 1) ((q + 1) * 2 ^ k) with hok | hbad
        · exact hok
        · exfalso
          have hQeq : Q + 1 = (q + 1) * 2 ^ k := by omega
          have hNup : N + 2 ^ k ≤ (q + 1) * b * 2 ^ k := by
            calc N + 2 ^ k = (a + 1) * 2 ^ k := by ring
              _ ≤ ((q + 1) * b) * 2 ^ k := Nat.mul_le_mul_right _ (by omega)
              _ = (q + 1) * b * 2 ^ k := by ring
          have hchain : 2 * N + 2 * 2 ^ k ≤ 2 * N + b := by
            calc 2 * N + 2 * 2 ^ k = 2 * (N + 2 ^ k) := by ring
              _ ≤ 2 * ((q + 1) * b * 2 ^ k) := by omega
              _ = 2 * b * ((q + 1) * 2 ^ k) := by ring
              _ = 2 * b * (Q + 1) := by rw [hQeq]
              _ = 2 * (b * Q) + 2 * b := by ring
              _ ≤ 2 * (b * Q) + 2 * R + b := by omega
              _ = 2 * (b * Q + R) + b := by ring
              _ = 2 * N + b := by rw [← hNQR]
          have : 2 ^ (k + 1) ≤ b := by
            have hp : (2 : Nat) ^ (k + 1) = 2 * 2 ^ k := by rw [pow_succ]; ring
            omega
          omega
      · split
        · omega
        · -- exact tie: Q is even or odd, add at most Q % 2 ≤ 1; the tie case
          -- needs the same exclusion as rounding up
          rename_i h1 h2
          have hup : b ≤ 2 * R := by omega
          rcases Nat.lt_or_ge (Q + Q % 2) ((q + 1) * 2 ^ k) with hok | hbad
          · exact hok
          · exfalso
            have hQeq : Q + 1 = (q + 1) * 2 ^ k := by omega
            have hNup : N + 2 ^ k ≤ (q + 1) * b * 2 ^ k := by
              calc N + 2 ^ k = (a + 1) * 2 ^ k := by ring
                _ ≤ ((q + 1) * b) * 2 ^ k := Nat.mul_le_mul_right _ (by omega)
                _ = (q + 1) * b * 2 ^ k := by ring
            have hchain : 2 * N + 2 * 2 ^ k ≤ 2 * N + b := by
              calc 2 * N + 2 * 2 ^ k = 2 * (N + 2 ^ k) := by ring
                _ ≤ 2 * ((q + 1) * b * 2 ^ k) := by omega
                _ = 2 * b * ((q + 1) * 2 ^ k) := by ring
                _ = 2 * b * (Q + 1) := by rw [hQeq]
                _ = 2 * (b * Q) + 2 * b := by ring
                _ ≤ 2 * (b * Q) + 2 * R + b := by omega
                _ = 2 * (b * Q + R) + b := by ring
                _ = 2 * N + b := by rw [← hNQR]
            have : 2 ^ (k + 1) ≤ b := by
              have hp : (2 : Nat) ^ (k + 1) = 2 * 2 ^ k := by rw [pow_succ]; ring
              omega
            omega
    have hroundlo : q * 2 ^ k ≤ rnde N b := by
      simp only [rnde, ← hQ, ← hR]
      split
      · omega
      · split
        · omega
        · omega
    exact Nat.div_eq_of_lt_le hroundlo hround

/-! ### The power-of-two bit trick -/

theorem land_pred_of_two_pow (k : Nat) : 2 ^ k &&& (2 ^ k - 1) = 0 := by
  apply Nat.eq_of_testBit_eq
  intro i
  rw [Nat.testBit_land, Nat.zero_testBit]
  rcases lt_or_ge i k with h | h
  · rw [Nat.testBit_two_pow_of_ne (by omega)]
    simp
  · rw [Nat.testBit_two_pow_sub_one]
    simp
    omega

theorem two_pow_of_land_pred (w : Nat) (hw : 0 < w) (h : w &&& (w - 1) = 0) :
    w = 2 ^ flog2 w := by
  obtain ⟨hlo, hhi⟩ := flog2_spec w hw
  set e := flog2 w with he
  by_contra hne
  have hgt : 2 ^ e < w := lt_of_le_of_ne hlo fun hx => hne hx.symm
  have hp : (2 : Nat) ^ (e + 1) = 2 * 2 ^ e := by rw [pow_succ]; ring
  have h1 : w / 2 ^ e = 1 := Nat.div_eq_of_lt_le (by omega) (by omega)
  have h2 : (w - 1) / 2 ^ e = 1 := Nat.div_eq_of_lt_le (by omega) (by omega)
  have h3 := Nat.testBit_land w (w - 1) e
  rw [h, Nat.zero_testBit, Nat.testBit_to_div_mod, Nat.testBit_to_div_mod, h1, h2] at h3
  simp at h3

theorem land_pred_eq_zero_iff (w : Nat) (hw : 0 < w) :
    w &&& (w - 1) = 0 ↔ ∃ k, w = 2 ^ k :=
  ⟨fun h => ⟨flog2 w, two_pow_of_land_pred w hw h⟩,
   fun ⟨k, hk⟩ => hk ▸ land_pred_of_two_pow k⟩

/-! ### Decimal rendering and parsing lemmas -/

theorem lt_ten_pow : ∀ n : Nat, n < 10 ^ (n + 1) := by
  intro n
  induction n with
  | zero => norm_num
  | succ n ih =>
    have h : (10 : Nat) ^ (n + 1 + 1) = 10 ^ (n + 1) * 10 := by rw [pow_succ]
    omega

theorem natDigitsAux_congr : ∀ (f : Nat), ∀ (g n : Nat), n < 10 ^ f → n < 10 ^ g →
    1 ≤ f → 1 ≤ g → natDigitsAux f n = natDigitsAux g n := by
  intro f
  induction f with
  | zero => omega
  | succ f ih =>
    intro g n hf hg h1f h1g
    match g with
    | 0 => omega
    | g + 1 =>
      simp only [natDigitsAux]
      split
      · rfl
      · rename_i hn
        have hf10 : n / 10 < 10 ^ f := by
          rw [Nat.div_lt_iff_lt_mul (by norm_num)]
          calc n < 10 ^ (f + 1) := hf
            _ = 10 ^ f * 10 := by rw [pow_succ]
        have hg10 : n / 10 < 10 ^ g := by
          rw [Nat.div_lt_iff_lt_mul (by norm_num)]
          calc n < 10 ^ (g + 1) := hg
            _ = 10 ^ g * 10 := by rw [pow_succ]
        have hfpos : 1 ≤ f := by
          by_contra hc
          have : f = 0 := by omega
          subst this
          simp at hf10
          omega
        have hgpos : 1 ≤ g := by
          by_contra hc
          have : g = 0 := by omega
          subst this
          simp at hg10
          omega
        rw [ih g (n / 10) hf10 hg10 hfpos hgpos]

theorem natDecimal_digit (n : Nat) (h : n < 10) : natDecimal n = [48 + n] := by
  simp [natDecimal, natDigitsAux, h]

theorem natDecimal_four (n : Nat) (h1 : 1000 ≤ n) (h2 : n ≤ 9999) :
    natDecimal n = [48 + n / 1000, 48 + n / 100 % 10, 48 + n / 10 % 10, 48 + n % 10] := by
  have hn4 : n < 10 ^ 4 := by
    have h4 : (10 : Nat) ^ 4 = 10000 := by norm_num
    omega
  have hc : natDecimal n = natDigitsAux 4 n :=
    natDigitsAux_congr (n + 1) 4 n (lt_ten_pow n) hn4 (by omega) (by omega)
  rw [hc]
  simp only [natDigitsAux]
  rw [if_neg (by omega : ¬ n < 10), if_neg (by omega : ¬ n / 10 < 10),
      if_neg (by omega : ¬ n / 10 / 10 < 10), if_pos (by omega : n / 10 / 10 / 10 < 10)]
  rw [show n / 10 / 10 / 10 = n / 1000 by omega, show n / 10 / 10 = n / 100 by omega]
  simp

theorem dropWhile_eq_self_of_all_false {p : Nat → Bool} :
    ∀ l : List Nat, (∀ b ∈ l, p b = false) → List.dropWhile p l = l := by
  intro l h
  cases l with
  | nil => rfl
  | cons a t =>
    rw [List.dropWhile_cons, if_neg]
    simp [h a (by simp)]

theorem isSpaceByte_of_digit (b : Nat) (h1 : 48 ≤ b) (h2 : b ≤ 57) : isSpaceByte b = false := by
  simp [isSpaceByte]
  omega

theorem pyIntOfBytes_digits (l : List Nat) (hne : l ≠ [])
    (hd : ∀ b ∈ l, 48 ≤ b ∧ b ≤ 57) : pyIntOfBytes l = some (digitsValue l) := by
  have hns : ∀ b ∈ l, isSpaceByte b = false := fun b hb =>
    isSpaceByte_of_digit b (hd b hb).1 (hd b hb).2
  have h1 : List.dropWhile (fun b => isSpaceByte b) l = l :=
    dropWhile_eq_self_of_all_false l hns
  have h2 : List.dropWhile (fun b => isSpaceByte b) l.reverse = l.reverse :=
    dropWhile_eq_self_of_all_false l.reverse fun b hb => hns b (List.mem_reverse.mp hb)
  rw [pyIntOfBytes]
  simp only [h1, h2, List.reverse_reverse]
  rw [if_pos]
  constructor
  · exact hne
  · rw [List.all_eq_true]
    intro b hb
    have := hd b hb
    simp [isDigitByte]
    omega

/-! ### Stream and chunk lemmas -/

theorem sread_eq (s : ByteStream) (k : Nat) (mid post : List Nat)
    (h : s.buf.drop s.pos = mid ++ post) (hk : mid.length = k) :
    sread s k = (mid, ⟨s.buf, s.pos + k⟩) := by
  rw [sread, h]
  have hlen : s.buf.length - s.pos = k + post.length := by
    have := List.length_drop s.pos s.buf
    rw [h] at this
    simp [hk] at this
    omega
  rw [List.take_left' hk, hlen]
  simp

theorem drop_after (s : ByteStream) (k : Nat) (mid post : List Nat)
    (h : s.buf.drop s.pos = mid ++ post) (hk : mid.length = k) :
    s.buf.drop (s.pos + k) = post := by
  rw [← List.drop_drop, h, List.drop_left' hk]

theorem chunkFuel_nil (step : Nat) : ∀ f, chunkFuel f step [] = [] := by
  intro f
  cases f <;> simp [chunkFuel]

theorem chunkFuel_congr (step : Nat) (hs : 0 < step) :
    ∀ (f g : Nat) (l : List Nat), l.length ≤ f → l.length ≤ g →
      chunkFuel f step l = chunkFuel g step l := by
  intro f
  induction f with
  | zero =>
    intro g l h1 _
    have : l = [] := List.eq_nil_of_length_eq_zero (by omega)
    subst this
    rw [chunkFuel_nil, chunkFuel_nil]
  | succ f ih =>
    intro g l h1 h2
    match g, l with
    | _, [] => rw [chunkFuel_nil, chunkFuel_nil]
    | 0, a :: t => simp at h2
    | g + 1, a :: t =>
      simp only [chunkFuel, if_neg (List.cons_ne_nil a t)]
      have hd : ((a :: t).drop step).length ≤ f := by
        simp at h1 ⊢
        omega
      have hd2 : ((a :: t).drop step).length ≤ g := by
        simp at h2 ⊢
        omega
      rw [ih g _ hd hd2]

theorem pyChunks_cons (step : Nat) (hs : 0 < step) (a b : List Nat)
    (ha : a.length = step) : pyChunks step (a ++ b) = a :: pyChunks step b := by
  have hne : a ++ b ≠ [] := by
    cases a with
    | nil => simp at ha; omega
    | cons x t => simp
  have hfl : (a ++ b).length = (step - 1 + b.length) + 1 := by
    simp [ha]
    omega
  rw [pyChunks, hfl]
  simp only [chunkFuel, if_neg hne]
  rw [List.take_left' ha, List.drop_left' ha]
  rw [chunkFuel_congr step hs _ b.length b (by omega) le_rfl]
  rfl

theorem pyChunks_short (step : Nat) (l : List Nat) (h1 : l ≠ [])
    (h2 : l.length ≤ step) : pyChunks step l = [l] := by
  match l with
  | a :: t =>
    rw [pyChunks]
    simp only [List.length_cons, chunkFuel, if_neg (List.cons_ne_nil a t)]
    rw [List.take_of_length_le h2, List.drop_eq_nil_of_le h2, chunkFuel_nil]

/-! ### Dedup scan vs `List.destutter` -/

theorem dedupAux_destutter :
    ∀ (l : List (List Nat)) (a : List Nat),
      a :: dedupAux l a = List.destutter' (· ≠ ·) a l := by
  intro l
  induction l with
  | nil => intro a; rfl
  | cons b t ih =>
    intro a
    simp only [dedupAux]
    rw [List.destutter'_cons]
    by_cases h : b = a
    · rw [if_pos h, if_neg (by simp [h])]
      exact ih a
    · rw [if_neg h, if_pos (fun hab => h hab.symm)]
      rw [← ih b]

/-- Updating a field with its current value is the identity. -/
theorem wave_size_update_self (wt : Wavetable) (w : Nat) (h : wt.wave_size = some w) :
    { wt with wave_size := some w } = wt := by
  cases wt
  simp_all

theorem pyChunks_ne_nil (step : Nat) (l : List Nat) (h : l ≠ []) : pyChunks step l ≠ [] := by
  match l with
  | a :: t =>
    rw [pyChunks]
    simp only [List.length_cons, chunkFuel, if_neg (List.cons_ne_nil a t)]
    exact List.cons_ne_nil _ _

theorem pyChunks_exact (B : Nat) (hB : 0 < B) :
    ∀ (N : Nat) (l : List Nat), l.length = B * N →
      (pyChunks B l).length = N ∧ ∀ c ∈ pyChunks B l, c.length = B := by
  intro N
  induction N with
  | zero =>
    intro l h
    have hl : l = [] := List.eq_nil_of_length_eq_zero (by omega)
    subst hl
    exact ⟨rfl, by simp [pyChunks, chunkFuel]⟩
  | succ N ih =>
    intro l h
    have hmul : B * (N + 1) = B * N + B := by ring
    have hlt : (l.take B).length = B := by
      simp [List.length_take]
      omega
    have hld : (l.drop B).length = B * N := by
      simp
      omega
    obtain ⟨ihl, ihc⟩ := ih _ hld
    have hsplit : l = l.take B ++ l.drop B := (List.take_append_drop B l).symm
    rw [hsplit, pyChunks_cons B hB _ _ hlt]
    refine ⟨by simp [ihl], ?_⟩
    intro c hc
    rcases List.mem_cons.mp hc with hc | hc
    · rw [hc]; exact hlt
    · exact ihc c hc

theorem pyChunks_rem (B : Nat) (hB : 0 < B) :
    ∀ (N : Nat) (l : List Nat) (r : Nat), 0 < r → r < B → l.length = B * N + r →
      ∃ cycles last, pyChunks B l = cycles ++ [last] ∧ cycles.length = N ∧
        (∀ c ∈ cycles, c.length = B) ∧ last.length = r := by
  intro N
  induction N with
  | zero =>
    intro l r h0 hr h
    refine ⟨[], l, ?_, rfl, by simp, by omega⟩
    rw [pyChunks_short B l (by intro hc; subst hc; simp at h; omega) (by omega)]
    rfl
  | succ N ih =>
    intro l r h0 hr h
    have hmul : B * (N + 1) = B * N + B := by ring
    have hlt : (l.take B).length = B := by
      simp [List.length_take]
      omega
    have hld : (l.drop B).length = B * N + r := by
      simp
      omega
    obtain ⟨cycles, last, hchunks, hlen, hall, hlast⟩ := ih _ r h0 hr hld
    have hsplit : l = l.take B ++ l.drop B := (List.take_append_drop B l).symm
    refine ⟨l.take B :: cycles, last, ?_, by simp [hlen], ?_, hlast⟩
    · conv_lhs => rw [hsplit]
      rw [pyChunks_cons B hB _ _ hlt, hchunks]
      simp
    · intro c hc
      rcases List.mem_cons.mp hc with hc | hc
      · rw [hc]; exact hlt
      · exact hall c hc

/-! ### Claim theorems -/

/-- Claim C5: for `B = wave_size * block_align > 0`, slicing a buffer of
length `B * N` yields exactly `N` slices of length `B`, and slicing a buffer
of length `B * N + r` with `0 < r < B` yields `N + 1` slices whose last has
length `r` and whose others have length `B`. -/
theorem C5_slicer_partition (wt : Wavetable) (w B : Nat)
    (hw : wt.wave_size = some w) (hB : B = w * wt.fmt_bytes_p_block) (hB0 : 0 < B) :
    (∀ (N : Nat) (d : List Nat), wt.data_samples = some d → d.length = B * N →
      ∃ cycles, wt.slicer = some (wt, cycles) ∧ cycles.length = N ∧
        ∀ c ∈ cycles, c.length = B) ∧
    (∀ (N r : Nat) (d : List Nat), wt.data_samples = some d → 0 < r → r < B →
      d.length = B * N + r →
      ∃ cycles last, wt.slicer = some (wt, cycles ++ [last]) ∧ cycles.length = N ∧
        (∀ c ∈ cycles, c.length = B) ∧ last.length = r) := by
  obtain ⟨ds, af, bps, bpb, bpsec, ch, sr, wc, wi, ws, wv⟩ := wt
  simp only at hw hB
  subst hw
  have hslicer : ∀ d : List Nat, ds = some d →
      Wavetable.slicer ⟨ds, af, bps, bpb, bpsec, ch, sr, wc, wi, some w, wv⟩ =
        some (⟨ds, af, bps, bpb, bpsec, ch, sr, wc, wi, some w, wv⟩, pyChunks B d) := by
    intro d hd
    subst hd
    rw [Wavetable.slicer]
    simp only [Option.getD_some, ← hB]
    rw [if_neg (by omega)]
  constructor
  · intro N d hd hlen
    obtain ⟨h1, h2⟩ := pyChunks_exact B hB0 N d hlen
    exact ⟨pyChunks B d, hslicer d hd, h1, h2⟩
  · intro N r d hd h0 hr hlen
    obtain ⟨cycles, last, h1, h2, h3, h4⟩ := pyChunks_rem B hB0 N d r h0 hr hlen
    exact ⟨cycles, last, by rw [hslicer d hd, h1], h2, h3, h4⟩

/-- A concrete record for the C5 witness: 6 sample bytes, `wave_size = 1`, block 2. -/
def wtC5a : Wavetable :=
  { Wavetable.initDefaults with data_samples := some [1, 2, 3, 4, 5, 6], wave_size := some 1 }

/-- A concrete record for the C5 witness: 5 sample bytes, `wave_size = 1`, block 2. -/
def wtC5b : Wavetable :=
  { Wavetable.initDefaults with data_samples := some [1, 2, 3, 4, 5], wave_size := some 1 }

/-- Witness for C5 at a concrete record (`wave_size = 1`, block 2, so `B = 2`):
6 bytes make 3 exact slices; 5 bytes make 2 full slices and a 1-byte rest. -/
theorem C5_witness :
    (∃ cycles, wtC5a.slicer = some (wtC5a, cycles) ∧
        cycles.length = 3 ∧ ∀ c ∈ cycles, c.length = 2) ∧
    (∃ cycles last, wtC5b.slicer = some (wtC5b, cycles ++ [last]) ∧
        cycles.length = 2 ∧ (∀ c ∈ cycles, c.length = 2) ∧ last.length = 1) :=
  ⟨(C5_slicer_partition wtC5a 1 2 rfl (by decide) (by decide)).1 3 [1, 2, 3, 4, 5, 6]
      rfl (by decide),
   (C5_slicer_partition wtC5b 1 2 rfl (by decide) (by decide)).2 2 1 [1, 2, 3, 4, 5]
      rfl (by decide) (by decide) (by decide)⟩

/-- Claim C4: `deduplicator` keeps the first slice and each subsequent slice
exactly when it differs from the most recently kept one (this is
`List.destutter (· ≠ ·)`); with no slice dropped it reports "no duplicates"
and returns the record unchanged, otherwise it replaces the samples with the
concatenation of the kept slices, resets `wave_interp` to 0 and sets
`wave_count` to the kept count. -/
theorem C4_deduplicator_destutter (wt : Wavetable) (w : Nat) (d c0 : List Nat)
    (rest : List (List Nat))
    (hw : wt.wave_size = some w) (hd : wt.data_samples = some d)
    (hstep : 0 < w * wt.fmt_bytes_p_block)
    (hchunks : pyChunks (w * wt.fmt_bytes_p_block) d = c0 :: rest) :
    wt.deduplicator =
      if (c0 :: rest).length = ((c0 :: rest).destutter (· ≠ ·)).length then
        some (wt, true)
      else
        some ({ wt with
                  data_samples := some ((c0 :: rest).destutter (· ≠ ·)).flatten
                  wave_interp := 0
                  wave_count := some ((c0 :: rest).destutter (· ≠ ·)).length }, false) := by
  obtain ⟨ds, af, bps, bpb, bpsec, ch, sr, wc, wi, ws, wv⟩ := wt
  try simp only at hw hd hstep hchunks
  subst hw
  subst hd
  have hslicer : Wavetable.slicer ⟨some d, af, bps, bpb, bpsec, ch, sr, wc, wi, some w, wv⟩ =
      some (⟨some d, af, bps, bpb, bpsec, ch, sr, wc, wi, some w, wv⟩, c0 :: rest) := by
    simp only [Wavetable.slicer, Option.getD_some]
    rw [if_neg (by omega), hchunks]
  rw [Wavetable.deduplicator, hslicer]
  have hkept : c0 :: dedupAux rest c0 = (c0 :: rest).destutter (· ≠ ·) :=
    dedupAux_destutter rest c0
  simp only [hkept]

/-- Witness for C4: three slices `[1,1], [1,1], [2,2]` collapse to two, the
samples become their concatenation, `wave_interp` resets and `wave_count`
becomes 2. -/
theorem C4_witness :
    ({ Wavetable.initDefaults with
        data_samples := some [1, 1, 1, 1, 2, 2], wave_size := some 1 } : Wavetable).deduplicator =
      some ({ Wavetable.initDefaults with
                data_samples := some [1, 1, 2, 2], wave_size := some 1,
                wave_interp := 0, wave_count := some 2 }, false) := by
  have h := C4_deduplicator_destutter
    { Wavetable.initDefaults with data_samples := some [1, 1, 1, 1, 2, 2], wave_size := some 1 }
    1 [1, 1, 1, 1, 2, 2] [1, 1] [[1, 1], [2, 2]] rfl rfl (by decide) (by decide)
  rw [h]
  decide

/-- Claim C9 (amended): with a positive slice step, `deduplicator` completes
on every record with a nonempty sample buffer, while on an empty sample
buffer `slicer` returns no cycles and `deduplicator` hits the out-of-range
first-slice access (an error) instead of reporting "no duplicates". -/
theorem C9_empty_buffer_error (wt : Wavetable)
    (hstep : 0 < wt.wave_size.getD 2048 * wt.fmt_bytes_p_block) :
    (∀ d : List Nat, wt.data_samples = some d → d ≠ [] → ∃ p, wt.deduplicator = some p) ∧
    (wt.data_samples = some [] →
      wt.slicer = some ({ wt with wave_size := some (wt.wave_size.getD 2048) }, []) ∧
      wt.deduplicator = none) := by
  obtain ⟨ds, af, bps, bpb, bpsec, ch, sr, wc, wi, ws, wv⟩ := wt
  try simp only at hstep ⊢
  constructor
  · intro d hd hne
    try simp only at hd
    subst hd
    have hslicer : Wavetable.slicer ⟨some d, af, bps, bpb, bpsec, ch, sr, wc, wi, ws, wv⟩ =
        some (⟨some d, af, bps, bpb, bpsec, ch, sr, wc, wi, some (ws.getD 2048), wv⟩,
          pyChunks (ws.getD 2048 * bpb) d) := by
      simp only [Wavetable.slicer]
      rw [if_neg (by omega)]
    have hnn := pyChunks_ne_nil (ws.getD 2048 * bpb) d hne
    rw [Wavetable.deduplicator, hslicer]
    match hx : pyChunks (ws.getD 2048 * bpb) d with
    | [] => exact absurd hx hnn
    | c0 :: rest =>
      dsimp only
      split <;> exact ⟨_, rfl⟩
  · intro hd
    try simp only at hd
    subst hd
    have hslicer : Wavetable.slicer ⟨some [], af, bps, bpb, bpsec, ch, sr, wc, wi, ws, wv⟩ =
        some (⟨some [], af, bps, bpb, bpsec, ch, sr, wc, wi, some (ws.getD 2048), wv⟩, []) := by
      simp only [Wavetable.slicer]
      rw [if_neg (by omega)]
      rfl
    exact ⟨hslicer, by rw [Wavetable.deduplicator, hslicer]⟩

/-- Witness for C9 at concrete records: a 2-byte buffer dedups successfully;
an empty buffer makes `slicer` return no cycles and `deduplicator` raise. -/
theorem C9_witness :
    (∃ p, ({ Wavetable.initDefaults with
        data_samples := some [1, 2] } : Wavetable).deduplicator = some p) ∧
    ({ Wavetable.initDefaults with data_samples := some [] } : Wavetable).slicer =
      some ({ Wavetable.initDefaults with data_samples := some [] }, []) ∧
    ({ Wavetable.initDefaults with data_samples := some [] } : Wavetable).deduplicator = none := by
  refine ⟨(C9_empty_buffer_error _ (by decide)).1 [1, 2] rfl (by decide), ?_, ?_⟩
  · exact ((C9_empty_buffer_error _ (by decide)).2 rfl).1
  · exact ((C9_empty_buffer_error _ (by decide)).2 rfl).2

/-- Counterexample for C9 as stated: a record with a *nonempty* buffer but
`wave_size = 0` makes the slice step zero, so `deduplicator` raises instead
of completing. -/
theorem C9_counterexample :
    ({ Wavetable.initDefaults with
        data_samples := some [1, 2], wave_size := some 0 } : Wavetable).data_samples =
      some [1, 2] ∧
    ([1, 2] : List Nat) ≠ [] ∧
    ({ Wavetable.initDefaults with
        data_samples := some [1, 2], wave_size := some 0 } : Wavetable).deduplicator = none := by
  decide

/-- Claim C10: `wt_set_flag` sets the full-range bit (bit 3) exactly when the
record is 16-bit *and* the caller asked for full range; for any other bit
depth both bit 2 and bit 3 stay clear whatever the arguments. -/
theorem C10_wt_set_flag_bits (wt : Wavetable) (is_s is_l is_fr : Bool) :
    (wt.wt_set_flag is_s is_l is_fr &&& 8 ≠ 0 ↔
      wt.fmt_bits_p_sample = 16 ∧ is_fr = true) ∧
    (wt.fmt_bits_p_sample ≠ 16 →
      wt.wt_set_flag is_s is_l is_fr &&& 4 = 0 ∧
      wt.wt_set_flag is_s is_l is_fr &&& 8 = 0) := by
  by_cases hb : wt.fmt_bits_p_sample = 16 <;>
    cases is_s <;> cases is_l <;> cases is_fr <;>
      simp [Wavetable.wt_set_flag, hb] <;> decide

/-- `wt_parse_flags` on flags with bits 0 and 1 clear: only the bit depth
changes, the stop flag is false. -/
theorem wt_parse_flags_of_clear (wtx : Wavetable) (flags : Nat)
    (h1 : flags &&& 1 = 0) (h2 : flags &&& 2 = 0) :
    wtx.wt_parse_flags flags =
      ({ wtx with fmt_bits_p_sample := if flags &&& 4 ≠ 0 then 16 else 32 }, false) := by
  have hs_f : Wavetable.is_sample flags = false := decide_eq_false fun hc => hc h1
  have hl_f : Wavetable.is_looped flags = false := decide_eq_false fun hc => hc h2
  rw [Wavetable.wt_parse_flags, hs_f, hl_f, Wavetable.is_int16]
  simp only [decide_eq_true_eq]
  simp

/-- Claim C7: `wt_parse_flags` aborts (stop flag, record unchanged) when bit 0
or bit 1 is set; otherwise it sets `fmt_bits_p_sample` to 16 or 32 from bit 2;
bits other than 0, 1, 2 (in particular bit 3) never influence the result; and
a successful `wt_import` with such flags forces `audio_format = 1`,
`channels = 1` and the fixed sample rate 88200. -/
theorem C7_wt_flag_semantics (wt : Wavetable) (flags : Nat) :
    (flags &&& 1 ≠ 0 → wt.wt_parse_flags flags = (wt, true)) ∧
    (flags &&& 1 = 0 → flags &&& 2 ≠ 0 → wt.wt_parse_flags flags = (wt, true)) ∧
    (flags &&& 1 = 0 → flags &&& 2 = 0 →
      wt.wt_parse_flags flags =
        ({ wt with fmt_bits_p_sample := if flags &&& 4 ≠ 0 then 16 else 32 }, false)) ∧
    (∀ g, flags &&& 1 = g &&& 1 → flags &&& 2 = g &&& 2 → flags &&& 4 = g &&& 4 →
      wt.wt_parse_flags flags = wt.wt_parse_flags g) ∧
    (∀ (r0 r : Wavetable) (file : List Nat) (b : Bool),
      fromBytesLE ((file.drop 10).take 2) = flags →
      flags &&& 1 = 0 → flags &&& 2 = 0 →
      r0.wt_import file = some (r, b) →
      b = false ∧ r.fmt_audio_format = 1 ∧ r.fmt_channels = 1 ∧
        r.fmt_sample_rate = 88200 ∧
        r.fmt_bits_p_sample = (if flags &&& 4 ≠ 0 then 16 else 32)) := by
  have hs_t : flags &&& 1 ≠ 0 → Wavetable.is_sample flags = true := fun h => decide_eq_true h
  have hs_f : flags &&& 1 = 0 → Wavetable.is_sample flags = false :=
    fun h => decide_eq_false fun hc => hc h
  have hl_t : flags &&& 2 ≠ 0 → Wavetable.is_looped flags = true := fun h => decide_eq_true h
  have hparse3 : ∀ wtx : Wavetable, flags &&& 1 = 0 → flags &&& 2 = 0 →
      wtx.wt_parse_flags flags =
        ({ wtx with fmt_bits_p_sample := if flags &&& 4 ≠ 0 then 16 else 32 }, false) :=
    fun wtx h1 h2 => wt_parse_flags_of_clear wtx flags h1 h2
  refine ⟨?_, ?_, hparse3 wt, ?_, ?_⟩
  · intro h1
    rw [Wavetable.wt_parse_flags, hs_t h1]
    simp
  · intro h1 h2
    rw [Wavetable.wt_parse_flags, hs_f h1, hl_t h2]
    simp
  · intro g h1 h2 h3
    simp only [Wavetable.wt_parse_flags, Wavetable.is_sample, Wavetable.is_looped,
      Wavetable.is_int16, h1, h2, h3]
  · intro r0 r file b hfl h1 h2 himp
    rw [Wavetable.wt_import] at himp
    rw [hfl] at himp
    rw [hparse3 _ h1 h2] at himp
    simp only [Wavetable.set_data, truthyNat] at himp
    rw [if_pos (by simp)] at himp
    rcases Option.map_eq_some'.mp himp with ⟨y, hy, hr⟩
    rcases Option.map_eq_some'.mp hy with ⟨c, -, rfl⟩
    simp only [Prod.mk.injEq] at hr
    obtain ⟨rfl, rfl⟩ := hr
    by_cases h4 : flags &&& 4 ≠ 0 <;>
      simp [h4, Wavetable.calc_fmt_bytes_p_block, Wavetable.calc_fmt_bytes_p_sec]

/-- Witness for C7 on a concrete 14-byte WT file with flags = 0b0100:
decode succeeds with `bits_per_sample = 16`, PCM, mono, 88200 Hz. -/
theorem C7_witness :
    ∃ (r : Wavetable) (b : Bool),
      Wavetable.wt_import Wavetable.initDefaults
        [118, 97, 119, 116, 8, 0, 0, 0, 1, 0, 4, 0, 9, 9] = some (r, b) ∧
      b = false ∧ r.fmt_audio_format = 1 ∧ r.fmt_channels = 1 ∧
      r.fmt_sample_rate = 88200 ∧ r.fmt_bits_p_sample = 16 := by
  have himp : ∃ p, Wavetable.wt_import Wavetable.initDefaults
      [118, 97, 119, 116, 8, 0, 0, 0, 1, 0, 4, 0, 9, 9] = some p := ⟨_, rfl⟩
  obtain ⟨⟨r, b⟩, hp⟩ := himp
  obtain ⟨hb, h1, h2, h3, h4⟩ :=
    (C7_wt_flag_semantics Wavetable.initDefaults 4).2.2.2.2 Wavetable.initDefaults r
      [118, 97, 119, 116, 8, 0, 0, 0, 1, 0, 4, 0, 9, 9] b (by decide) (by decide) (by decide) hp
  exact ⟨r, b, hp, hb, h1, h2, h3, by simpa using h4⟩

/-- The C3 failing input: 2^53 + 1 sample bytes, slice step 1 byte. -/
def rC3 : Wavetable :=
  { Wavetable.initDefaults with
      data_samples := some (List.replicate (2 ^ 53 + 1) 0)
      wave_size := some 1
      fmt_bytes_p_block := 1 }

/-- Claim C3 (code bug witnessed): `calc_wave_count` computes
`int(len / (wave_size * block))` with *float* division, so at 2^53 + 1 bytes
and step 1 it returns 2^53 although the exact floor is 2^53 + 1. -/
theorem C3_calc_wave_count_float_slip :
    rC3.calc_wave_count = some (2 ^ 53) ∧
    (List.replicate (2 ^ 53 + 1) (0 : Nat)).length / (1 * 1) = 2 ^ 53 + 1 := by
  constructor
  · have h1 : rC3.calc_wave_count = some (pyIntDiv (2 ^ 53 + 1) 1) := by
      simp only [rC3, Wavetable.initDefaults, Wavetable.calc_wave_count, List.length_replicate]
      norm_num
    have h2 : pyIntDiv (2 ^ 53 + 1) 1 = 2 ^ 53 := by decide
    rw [h1, h2]
  · rw [List.length_replicate]
    norm_num

/-- A record already holding a nonempty sample payload, for C8. -/
def wtC8 : Wavetable := { Wavetable.initDefaults with data_samples := some [7] }

/-- Claim C8 (amended): a `data` chunk met while the record already holds a
*nonempty* payload is skipped with a warning: the record is untouched and
only the 4 size bytes are consumed from the stream. -/
theorem C8_second_data_chunk_ignored (wt : Wavetable) (s : ByteStream) (d : List Nat)
    (hd : wt.data_samples = some d) (hne : d ≠ []) :
    wt.wav_parse_chunk s [100, 97, 116, 97] = some (wt, (sread s 4).2, false) := by
  obtain ⟨a, t, rfl⟩ : ∃ a t, d = a :: t := by
    cases d with
    | nil => exact absurd rfl hne
    | cons a t => exact ⟨a, t, rfl⟩
  simp [Wavetable.wav_parse_chunk, Wavetable.is_riff, Wavetable.is_fmt,
    Wavetable.is_clm, Wavetable.is_data, hd, truthyBytes]

/-- Witness for C8: concrete record and stream. -/
theorem C8_witness :
    wtC8.wav_parse_chunk ⟨[1, 2, 3, 4, 5], 0⟩ [100, 97, 116, 97] =
      some (wtC8, (sread ⟨[1, 2, 3, 4, 5], 0⟩ 4).2, false) :=
  C8_second_data_chunk_ignored wtC8 ⟨[1, 2, 3, 4, 5], 0⟩ [7] rfl (by decide)

/-- A WAVE stream with two `data` chunks, the first with an *empty* payload:
RIFF header, `data` of size 0, then `data` of size 1 with payload `[7]`. -/
def fileC8 : List Nat :=
  [82, 73, 70, 70, 0, 0, 0, 0, 87, 65, 86, 69,
   100, 97, 116, 97, 0, 0, 0, 0,
   100, 97, 116, 97, 1, 0, 0, 0, 7]

/-- Counterexample for C8 as stated: after an empty first `data` payload has
been captured, the second `data` chunk is *not* ignored (Python truthiness of
`b''`), so the final samples are the second chunk's payload, not the first's. -/
theorem C8_counterexample :
    (Wavetable.wav_import Wavetable.initDefaults fileC8).map
        (fun p => (p.1.data_samples, p.2)) = some (some [7], false) ∧
    (some [7] : Option (List Nat)) ≠ some [] := by
  constructor
  · decide
  · decide

/-- Claim C6 (amended): `wt_write` reports failure before opening the file
(nothing written) whenever the channel count differs from 1 or the wave size
is zero or not a power of two; when the channel count is 1 and the wave size
is a nonzero power of two that fits 4 bytes, and the wave count is set and
fits 2 bytes, and the sample buffer is present, the complete file is
written. -/
theorem C6_wt_write_validation (wt : Wavetable) (is_s is_l is_fr : Bool) :
    (wt.fmt_channels ≠ 1 → wt.wt_write is_s is_l is_fr = .failed) ∧
    (∀ w, wt.fmt_channels = 1 → wt.wave_size = some w → (w = 0 ∨ ¬ ∃ k, w = 2 ^ k) →
      wt.wt_write is_s is_l is_fr = .failed) ∧
    (∀ w c d, wt.fmt_channels = 1 → wt.wave_size = some w → (∃ k, w = 2 ^ k) →
      w < 2 ^ 32 → wt.wave_count = some c → c < 2 ^ 16 → wt.data_samples = some d →
      wt.wt_write is_s is_l is_fr =
        .ok ([118, 97, 119, 116] ++ toBytesLE 4 w ++ toBytesLE 2 c ++
             toBytesLE 2 (wt.wt_set_flag is_s is_l is_fr) ++ d)) := by
  refine ⟨?_, ?_, ?_⟩
  · intro h
    rw [Wavetable.wt_write, if_pos h]
  · intro w hch hws hbad
    have hguard : w &&& (w - 1) ≠ 0 ∨ w = 0 := by
      rcases hbad with h0 | hnp
      · right; exact h0
      · rcases Nat.eq_zero_or_pos w with h0 | hpos
        · right; exact h0
        · left; intro hz; exact hnp ((land_pred_eq_zero_iff w hpos).mp hz)
    rw [Wavetable.wt_write, if_neg (by simp [hch]), hws]
    dsimp only
    rw [if_pos hguard]
  · intro w c d hch hws hpow hw32 hc hc16 hd
    have hland : w &&& (w - 1) = 0 := by
      obtain ⟨k, rfl⟩ := hpow
      exact land_pred_of_two_pow k
    have hw0 : w ≠ 0 := by
      obtain ⟨k, rfl⟩ := hpow
      exact (pow_pos (by norm_num : (0 : Nat) < 2) k).ne'
    rw [Wavetable.wt_write, if_neg (by simp [hch]), hws]
    dsimp only
    rw [if_neg (by simp [hland, hw0]), if_neg (by omega), hc]
    dsimp only
    rw [if_neg (by omega), hd]

/-- Witness for C6: a 2-channel record and a `wave_size = 3000` record are
rejected; a mono record with `wave_size = 2048`, a wave count and data is
written in full. -/
theorem C6_witness :
    ({ Wavetable.initDefaults with fmt_channels := 2 } : Wavetable).wt_write
        false false true = .failed ∧
    ({ Wavetable.initDefaults with wave_size := some 3000 } : Wavetable).wt_write
        false false true = .failed ∧
    ({ Wavetable.initDefaults with
        wave_count := some 1
        data_samples := some [5] } : Wavetable).wt_write false false true =
      .ok [118, 97, 119, 116, 0, 8, 0, 0, 1, 0, 12, 0, 5] := by
  have h3000 : ¬ ∃ k, (3000 : Nat) = 2 ^ k := by
    rintro ⟨k, hk⟩
    have hk12 : k < 12 := by
      by_contra hc
      have h1 : (2 : Nat) ^ 12 ≤ 2 ^ k := Nat.pow_le_pow_right (by norm_num) (by omega)
      have h2 : (2 : Nat) ^ 12 = 4096 := by norm_num
      omega
    interval_cases k <;> simp_all
  refine ⟨(C6_wt_write_validation _ false false true).1 (by decide), ?_, ?_⟩
  · exact (C6_wt_write_validation _ false false true).2.1 3000 (by decide) (by decide)
      (Or.inr h3000)
  · have h := (C6_wt_write_validation
      { Wavetable.initDefaults with wave_count := some 1, data_samples := some [5] }
      false false true).2.2 2048 1 [5] (by decide) (by decide) ⟨11, by norm_num⟩
      (by norm_num) (by decide) (by norm_num) (by decide)
    rw [h]
    decide

/-- Counterexample for C6 as stated: the freshly constructed default record is
mono with the power-of-two wave size 2048, yet `wt_write` raises mid-write
(`None` wave count has no `to_bytes`), leaving an 8-byte partial file, not
the written wavetable. -/
theorem C6_counterexample :
    Wavetable.initDefaults.fmt_channels = 1 ∧
    Wavetable.initDefaults.wave_size = some 2048 ∧ (2048 : Nat) = 2 ^ 11 ∧
    Wavetable.initDefaults.wt_write false false true =
      .crashed [118, 97, 119, 116, 0, 8, 0, 0] := by
  refine ⟨rfl, rfl, by norm_num, ?_⟩
  decide

/-- Witness for C10: a 16-bit record with full range requested has bit 3 set;
a 32-bit record has bits 2 and 3 clear. -/
theorem C10_witness :
    Wavetable.initDefaults.wt_set_flag false false true &&& 8 ≠ 0 ∧
    ({ Wavetable.initDefaults with fmt_bits_p_sample := 32 } : Wavetable).wt_set_flag
        false false true &&& 4 = 0 :=
  ⟨(C10_wt_set_flag_bits Wavetable.initDefaults false false true).1.mpr ⟨rfl, rfl⟩,
   ((C10_wt_set_flag_bits { Wavetable.initDefaults with fmt_bits_p_sample := 32 }
      false false true).2 (by decide)).1⟩

/-! ### WT round trip (C2) -/

theorem toBytesLE_length : ∀ (n v : Nat), (toBytesLE n v).length = n := by
  intro n
  induction n with
  | zero => intro v; rfl
  | succ n ih => intro v; simp [toBytesLE, ih]

/-- Closed form of the WT flags emitted with the default is-sample/is-looped
arguments. -/
theorem wt_set_flag_false_false (wt : Wavetable) (fr : Bool) :
    wt.wt_set_flag false false fr =
      if wt.fmt_bits_p_sample = 16 then (if fr then 12 else 4) else 0 := by
  rw [Wavetable.wt_set_flag]
  split_ifs <;> first | decide | contradiction

/-- The encode-then-decode core for the WT codec: whenever `wt_write` (with
the default is-sample/is-looped arguments) produces a complete file, importing
that file into any record succeeds and yields the original samples and wave
size, the block size implied by the encoded bit depth, and the wave count
`int(len / (wave_size * block))` exactly as the code computes it. -/
theorem wt_roundtrip_core (r r0 : Wavetable) (w : Nat) (d out : List Nat) (fr : Bool)
    (hch : r.fmt_channels = 1) (hws : r.wave_size = some w) (hd : r.data_samples = some d)
    (hok : r.wt_write false false fr = .ok out) :
    ∃ r1, r0.wt_import out = some (r1, false) ∧
      r1.data_samples = some d ∧ r1.wave_size = some w ∧
      r1.fmt_bytes_p_block = (if r.fmt_bits_p_sample = 16 then 2 else 4) ∧
      r1.wave_count =
        some (pyIntDiv d.length (w * (if r.fmt_bits_p_sample = 16 then 2 else 4))) := by
  -- invert the encoder
  rw [Wavetable.wt_write, if_neg (by simp [hch]), hws] at hok
  dsimp only at hok
  by_cases hg : w &&& (w - 1) ≠ 0 ∨ w = 0
  · rw [if_pos hg] at hok
    exact absurd hok (by simp)
  · rw [if_neg hg] at hok
    push_neg at hg
    obtain ⟨hg1, hg2⟩ := hg
    by_cases h32 : 2 ^ 32 ≤ w
    · rw [if_pos h32] at hok
      exact absurd hok (by simp)
    · rw [if_neg h32] at hok
      push_neg at h32
      rcases hwc : r.wave_count with _ | c
      · rw [hwc] at hok
        exact absurd hok (by simp)
      · rw [hwc] at hok
        dsimp only at hok
        by_cases hc16 : 2 ^ 16 ≤ c
        · rw [if_pos hc16] at hok
          exact absurd hok (by simp)
        · rw [if_neg hc16] at hok
          push_neg at hc16
          rw [hd] at hok
          have hout : out = [118, 97, 119, 116] ++ toBytesLE 4 w ++ toBytesLE 2 c ++
              toBytesLE 2 (r.wt_set_flag false false fr) ++ d := by
            simp only [Wavetable.WtWriteResult.ok.injEq] at hok
            exact hok.symm
          clear hok
          -- byte-level facts
          have hw32 : w < 2 ^ (8 * 4) := by
            have e : (2 : Nat) ^ (8 * 4) = 2 ^ 32 := by norm_num
            omega
          have hc2 : c < 2 ^ (8 * 2) := by
            have e : (2 : Nat) ^ (8 * 2) = 2 ^ 16 := by norm_num
            omega
          set flag := r.wt_set_flag false false fr with hflagdef
          have hflag : flag = if r.fmt_bits_p_sample = 16 then (if fr then 12 else 4) else 0 :=
            wt_set_flag_false_false r fr
          have hflag16 : flag < 2 ^ (8 * 2) := by
            rw [hflag]
            split_ifs <;> norm_num
          have hb1 : flag &&& 1 = 0 := by
            rw [hflag]
            split_ifs <;> decide
          have hb2 : flag &&& 2 = 0 := by
            rw [hflag]
            split_ifs <;> decide
          have hbits : (if flag &&& 4 ≠ 0 then (16 : Nat) else 32) =
              (if r.fmt_bits_p_sample = 16 then 16 else 32) := by
            by_cases hb : r.fmt_bits_p_sample = 16
            · rcases fr <;> simp [hflag, hb]
            · simp [hflag, hb]
          -- slicing the emitted file
          have ha4 : out = [118, 97, 119, 116] ++
              (toBytesLE 4 w ++ (toBytesLE 2 c ++ (toBytesLE 2 flag ++ d))) := by
            rw [hout]
            simp [List.append_assoc]
          have ha8 : out = ([118, 97, 119, 116] ++ toBytesLE 4 w) ++
              (toBytesLE 2 c ++ (toBytesLE 2 flag ++ d)) := by
            rw [hout]
            simp [List.append_assoc]
          have ha10 : out = (([118, 97, 119, 116] ++ toBytesLE 4 w) ++ toBytesLE 2 c) ++
              (toBytesLE 2 flag ++ d) := by
            rw [hout]
            simp [List.append_assoc]
          have ha12 : out = ((([118, 97, 119, 116] ++ toBytesLE 4 w) ++ toBytesLE 2 c) ++
              toBytesLE 2 flag) ++ d := hout
          have e1 : fromBytesLE ((out.drop 4).take 4) = w := by
            rw [ha4, List.drop_left' (by rfl), List.take_left' (toBytesLE_length 4 w)]
            exact fromBytesLE_toBytesLE 4 w hw32
          have e2 : fromBytesLE ((out.drop 8).take 2) = c := by
            rw [ha8, List.drop_left' (by simp [toBytesLE_length]),
              List.take_left' (toBytesLE_length 2 c)]
            exact fromBytesLE_toBytesLE 2 c hc2
          have e3 : fromBytesLE ((out.drop 10).take 2) = flag := by
            rw [ha10, List.drop_left' (by simp [toBytesLE_length]),
              List.take_left' (toBytesLE_length 2 flag)]
            exact fromBytesLE_toBytesLE 2 flag hflag16
          have e4 : out.drop 12 = d := by
            rw [ha12, List.drop_left' (by simp [toBytesLE_length])]
          -- run the importer
          rw [Wavetable.wt_import, e1, e2, e3, e4]
          rw [wt_parse_flags_of_clear _ flag hb1 hb2]
          dsimp only
          rw [hbits]
          simp only [Wavetable.set_data, truthyNat]
          rw [if_pos (by simp)]
          simp only [Option.getD_some, Option.getD_none, Option.isSome_none,
            Bool.false_eq_true, if_false]
          rw [Wavetable.calc_wave_count]
          simp only [Wavetable.calc_fmt_bytes_p_block, Wavetable.calc_fmt_bytes_p_sec]
          have hblock : pyIntDiv (1 * (if r.fmt_bits_p_sample = 16 then (16 : Nat) else 32)) 8 =
              (if r.fmt_bits_p_sample = 16 then 2 else 4) := by
            by_cases hb : r.fmt_bits_p_sample = 16
            · simp only [hb, if_pos]
              decide
            · simp only [hb, if_neg, ite_false]
              decide
          rw [hblock]
          have hdiv : w * (if r.fmt_bits_p_sample = 16 then (2 : Nat) else 4) ≠ 0 := by
            split_ifs <;> omega
          rw [if_neg hdiv]
          simp only [Option.map_some']
          exact ⟨_, rfl, rfl, rfl, rfl, rfl⟩

/-- Claim C2 (amended): for a mono record with a power-of-two wave size, when
`wt_write` (default flags arguments) produces output and the sample buffer is
smaller than 2^53 bytes, decoding with `wt_import` yields byte-identical
samples, the exact original wave size, and
`wave_count = len(samples) / (wave_size * block_align)` (exact floor). -/
theorem C2_wt_roundtrip (r r0 : Wavetable) (w : Nat) (d out : List Nat) (fr : Bool)
    (hch : r.fmt_channels = 1) (hws : r.wave_size = some w) (hd : r.data_samples = some d)
    (hok : r.wt_write false false fr = .ok out) (hlen : d.length < 2 ^ 53) :
    ∃ r1, r0.wt_import out = some (r1, false) ∧
      r1.data_samples = some d ∧ r1.wave_size = some w ∧
      r1.wave_count = some (d.length / (w * r1.fmt_bytes_p_block)) := by
  have hw0 : w ≠ 0 := by
    intro h0
    subst h0
    rw [Wavetable.wt_write, if_neg (by simp [hch]), hws] at hok
    dsimp only at hok
    rw [if_pos (Or.inr rfl)] at hok
    exact absurd hok (by simp)
  obtain ⟨r1, h1, h2, h3, h4, h5⟩ := wt_roundtrip_core r r0 w d out fr hch hws hd hok
  refine ⟨r1, h1, h2, h3, ?_⟩
  rw [h5, h4]
  congr 1
  apply pyIntDiv_eq_div
  · split_ifs <;> omega
  · exact hlen

/-- The C2 witness record: mono, wave size 2, 4 sample bytes. -/
def rC2w : Wavetable :=
  { Wavetable.initDefaults with
      wave_size := some 2
      wave_count := some 0
      data_samples := some [1, 2, 3, 4] }

/-- Witness for C2 on a concrete record: encode then decode preserves the
4 sample bytes and the wave size 2, and recomputes the wave count. -/
theorem C2_witness :
    ∃ r1, Wavetable.wt_import Wavetable.initDefaults
        [118, 97, 119, 116, 2, 0, 0, 0, 0, 0, 12, 0, 1, 2, 3, 4] = some (r1, false) ∧
      r1.data_samples = some [1, 2, 3, 4] ∧ r1.wave_size = some 2 ∧
      r1.wave_count = some ([1, 2, 3, 4].length / (2 * r1.fmt_bytes_p_block)) :=
  C2_wt_roundtrip rC2w Wavetable.initDefaults 2 [1, 2, 3, 4]
    [118, 97, 119, 116, 2, 0, 0, 0, 0, 0, 12, 0, 1, 2, 3, 4] true
    rfl rfl rfl (by decide) (by decide)

/-- The C2 failing input: mono, wave size 1 (a power of two), wave count 0,
and 2^54 + 2 sample bytes. -/
def rC2big : Wavetable :=
  { Wavetable.initDefaults with
      wave_size := some 1
      wave_count := some 0
      data_samples := some (List.replicate (2 ^ 54 + 2) 0) }

/-- The complete WT file `wt_write` emits for `rC2big`. -/
def outC2big : List Nat :=
  [118, 97, 119, 116, 1, 0, 0, 0, 0, 0, 12, 0] ++ List.replicate (2 ^ 54 + 2) 0

/-- Counterexample for C2 as stated: `rC2big` is mono with the power-of-two
wave size 1 and `wt_write` does produce output, but the decoded `wave_count`
is 2^53 (float-rounded `int(len/(wave_size*block_align))`) while
`floor(len(samples)/(wave_size*block_align)) = 2^53 + 1`. -/
theorem C2_counterexample :
    rC2big.fmt_channels = 1 ∧ (1 : Nat) = 2 ^ 0 ∧
    rC2big.wt_write false false true = .ok outC2big ∧
    (Wavetable.wt_import Wavetable.initDefaults outC2big).map
        (fun p => (p.1.wave_count, p.1.fmt_bytes_p_block, p.2)) =
      some (some (2 ^ 53), 2, false) ∧
    (List.replicate (2 ^ 54 + 2) (0 : Nat)).length / (1 * 2) = 2 ^ 53 + 1 ∧
    (2 : Nat) ^ 53 ≠ 2 ^ 53 + 1 := by
  have hok : rC2big.wt_write false false true = .ok outC2big := rfl
  refine ⟨rfl, by norm_num, hok, ?_, ?_, by omega⟩
  · obtain ⟨r1, h1, h2, h3, h4, h5⟩ := wt_roundtrip_core rC2big Wavetable.initDefaults 1
      (List.replicate (2 ^ 54 + 2) 0) outC2big true rfl rfl rfl hok
    have hb : rC2big.fmt_bits_p_sample = 16 := rfl
    rw [hb] at h4 h5
    simp only [if_pos] at h4 h5
    rw [List.length_replicate] at h5
    have hdec : pyIntDiv (2 ^ 54 + 2) (1 * 2) = 2 ^ 53 := by decide
    rw [hdec] at h5
    rw [h1]
    simp only [Option.map_some']
    rw [h4, h5]
  · rw [List.length_replicate]
    norm_num

/-! ### WAV round trip (C1) -/

theorem pyIntOfBytes_digit (i : Nat) (h : i ≤ 9) : pyIntOfBytes [48 + i] = some i := by
  have hd : ∀ b ∈ [48 + i], 48 ≤ b ∧ b ≤ 57 := by
    intro b hb
    simp at hb
    omega
  rw [pyIntOfBytes_digits _ (by simp) hd]
  simp [digitsValue]

theorem pyIntOfBytes_natDecimal_four (n : Nat) (h1 : 1000 ≤ n) (h2 : n ≤ 9999) :
    pyIntOfBytes (natDecimal n) = some n := by
  rw [natDecimal_four n h1 h2]
  have hd : ∀ b ∈ [48 + n / 1000, 48 + n / 100 % 10, 48 + n / 10 % 10, 48 + n % 10],
      48 ≤ b ∧ b ≤ 57 := by
    intro b hb
    simp at hb
    rcases hb with rfl | rfl | rfl | rfl <;> constructor <;> omega
  rw [pyIntOfBytes_digits _ (by simp) hd]
  congr 1
  simp [digitsValue]
  omega

theorem drop_chain (l mid post : List Nat) (p k : Nat)
    (h : l.drop p = mid ++ post) (hk : mid.length = k) :
    l.drop (p + k) = post := by
  rw [← List.drop_drop, h, List.drop_left' hk]

/-- `sread` at an explicit position, phrased for chained rewriting. -/
theorem sread_at (buf : List Nat) (p k : Nat) (mid post : List Nat)
    (h : buf.drop p = mid ++ post) (hk : mid.length = k) :
    sread ⟨buf, p⟩ k = (mid, ⟨buf, p + k⟩) :=
  sread_eq ⟨buf, p⟩ k mid post h hk

/-- One unfolding of the chunk loop. -/
theorem wavImportLoop_step (f : Nat) (wt : Wavetable) (s : ByteStream) :
    Wavetable.wavImportLoop (f + 1) wt s =
      (let (cid, s1) := sread s 4
       if cid.length ≠ 4 then
         (wt.calc_wave_count).map fun c => ({ wt with wave_count := some c }, false)
       else
         match Wavetable.wav_parse_chunk wt s1 cid with
         | none => none
         | some (wt2, _, true) => some (wt2, true)
         | some (wt2, s2, false) => Wavetable.wavImportLoop f wt2 s2) := rfl

/-- The C1 counterexample record: the default record with an empty (but
present) sample buffer; its vendor string has even length 26. -/
def rC1 : Wavetable := { Wavetable.initDefaults with data_samples := some [] }

/-- Counterexample for C1 as stated: encoding `rC1` and decoding the result
preserves samples, wave size and interpolation, but the decoded vendor bytes
are the original ones with a zero byte appended (the even-length pad of the
clm chunk is read back as vendor data), so the vendor is *not* identical. -/
theorem C1_counterexample :
    (Wavetable.wav_write rC1).bind (fun o =>
        (Wavetable.wav_import Wavetable.initDefaults o).map
          (fun p => (p.1.wave_vendor, p.1.data_samples, p.1.wave_size, p.2))) =
      some (defaultVendor ++ [0], some [], some 2048, false) ∧
    defaultVendor ++ [0] ≠ defaultVendor := by
  constructor
  · decide
  · decide

/-- The byte stream `wav_write` emits for a record `r` with sample buffer `d`
(the RIFF size field written directly instead of backpatched). -/
def wavFileOf (r : Wavetable) (d : List Nat) : List Nat :=
  [82, 73, 70, 70] ++ toBytesLE 4 (44 + r.clmData.length + d.length) ++ [87, 65, 86, 69] ++
  [102, 109, 116, 32] ++ [16, 0, 0, 0] ++
  toBytesLE 2 r.fmt_audio_format ++ toBytesLE 2 r.fmt_channels ++
  toBytesLE 4 r.fmt_sample_rate ++ toBytesLE 4 r.fmt_bytes_p_sec ++
  toBytesLE 2 r.fmt_bytes_p_block ++ toBytesLE 2 r.fmt_bits_p_sample ++
  [99, 108, 109, 32] ++ toBytesLE 4 r.clmData.length ++ r.clmData ++
  [100, 97, 116, 97] ++ toBytesLE 4 d.length ++ d

/-- Claim C1 (amended): encoding a record whose `wave_size` has four decimal
digits and whose `wave_interp` is a single digit, then decoding the produced
WAVE container into a fresh record, preserves the samples, the wave size,
the interpolation code and every fmt field exactly; the vendor bytes come
back with a single zero byte appended exactly when the clm payload
(17 + vendor length bytes) was padded to even length. -/
theorem C1_wav_roundtrip (r r0 : Wavetable) (w : Nat) (d : List Nat)
    (hd : r.data_samples = some d)
    (hws : r.wave_size = some w) (hw1 : 1000 ≤ w) (hw2 : w ≤ 9999)
    (hip9 : r.wave_interp ≤ 9)
    (haf : r.fmt_audio_format < 2 ^ 16) (hch : r.fmt_channels < 2 ^ 16)
    (hsr : r.fmt_sample_rate < 2 ^ 32) (hbs : r.fmt_bytes_p_sec < 2 ^ 32)
    (hba : r.fmt_bytes_p_block < 2 ^ 16) (hba0 : r.fmt_bytes_p_block ≠ 0)
    (hbi : r.fmt_bits_p_sample < 2 ^ 16)
    (hsz : r.wave_vendor.length + d.length < 2 ^ 31)
    (h0 : r0.data_samples = none) :
    ∃ out r1, r.wav_write = some out ∧ r0.wav_import out = some (r1, false) ∧
      r1.data_samples = some d ∧ r1.wave_size = some w ∧
      r1.wave_interp = r.wave_interp ∧
      r1.wave_vendor = r.wave_vendor ++
        (if r.wave_vendor.length % 2 = 0 then [0] else []) ∧
      r1.fmt_audio_format = r.fmt_audio_format ∧ r1.fmt_channels = r.fmt_channels ∧
      r1.fmt_sample_rate = r.fmt_sample_rate ∧ r1.fmt_bytes_p_sec = r.fmt_bytes_p_sec ∧
      r1.fmt_bytes_p_block = r.fmt_bytes_p_block ∧
      r1.fmt_bits_p_sample = r.fmt_bits_p_sample := by
  -- digit facts
  have hA4 : (natDecimal w).length = 4 := by rw [natDecimal_four w hw1 hw2]; rfl
  have hI : natDecimal r.wave_interp = [48 + r.wave_interp] :=
    natDecimal_digit _ (by omega)
  -- the clm payload
  have hclm : r.clmData =
      [60, 33, 62] ++ natDecimal w ++ [32] ++ [48 + r.wave_interp] ++
        [48, 48, 48, 48, 48, 48, 48, 32] ++ r.wave_vendor ++
        (if r.wave_vendor.length % 2 = 0 then [0] else []) := by
    simp only [Wavetable.clmData, hws, hI]
    by_cases hpar : r.wave_vendor.length % 2 = 0
    · rw [if_pos (by simp [hA4]; omega), if_pos hpar]
      try simp [List.append_assoc]
    · rw [if_neg (by simp [hA4]; omega), if_neg hpar]
      try simp [List.append_assoc]
  have hKlen : r.clmData.length ≤ 18 + r.wave_vendor.length := by
    rw [hclm]
    split_ifs <;> (simp [hA4]; try omega)
  have hKlen17 : 17 ≤ r.clmData.length := by
    rw [hclm]
    split_ifs <;> (simp [hA4]; try omega)
  -- clm slice facts
  have hcd3 : r.clmData.drop 3 =
      natDecimal w ++ ([32] ++ ([48 + r.wave_interp] ++
        ([48, 48, 48, 48, 48, 48, 48, 32] ++ (r.wave_vendor ++
          (if r.wave_vendor.length % 2 = 0 then [0] else []))))) := by
    rw [hclm]
    simp only [List.append_assoc]
    rw [List.drop_left' (show ([60, 33, 62] : List Nat).length = 3 from rfl)]
  have hcd37 : (r.clmData.drop 3).take 4 = natDecimal w := by
    rw [hcd3, List.take_left' hA4]
  have hcd7 := drop_chain _ _ _ 3 4 hcd3 hA4
  have hcd8 := drop_chain _ _ _ (3 + 4) 1 hcd7 rfl
  have hcd89 : (r.clmData.drop 8).take 1 = [48 + r.wave_interp] := by
    rw [show (8 : Nat) = 3 + 4 + 1 from rfl, hcd8,
      List.take_left' (show ([48 + r.wave_interp] : List Nat).length = 1 from rfl)]
  have hcd9 := drop_chain _ _ _ (3 + 4 + 1) 1 hcd8 rfl
  have hcd17' := drop_chain _ _ _ (3 + 4 + 1 + 1) 8 hcd9 rfl
  have hcd17 : r.clmData.drop 17 = r.wave_vendor ++
      (if r.wave_vendor.length % 2 = 0 then [0] else []) := by
    rw [show (17 : Nat) = 3 + 4 + 1 + 1 + 8 from rfl, hcd17']
  -- literal powers
  have e16 : (2 : Nat) ^ (8 * 2) = 2 ^ 16 := by norm_num
  have e32 : (2 : Nat) ^ (8 * 4) = 2 ^ 32 := by norm_num
  have e31 : (2 : Nat) ^ 31 ≤ 2 ^ 32 := by norm_num
  have haf2 : r.fmt_audio_format < 2 ^ (8 * 2) := by omega
  have hch2 : r.fmt_channels < 2 ^ (8 * 2) := by omega
  have hsr4 : r.fmt_sample_rate < 2 ^ (8 * 4) := by omega
  have hbs4 : r.fmt_bytes_p_sec < 2 ^ (8 * 4) := by omega
  have hba2 : r.fmt_bytes_p_block < 2 ^ (8 * 2) := by omega
  have hbi2 : r.fmt_bits_p_sample < 2 ^ (8 * 2) := by omega
  have hK32 : r.clmData.length < 2 ^ 32 := by omega
  have hK4 : r.clmData.length < 2 ^ (8 * 4) := by omega
  have hdl4 : d.length < 2 ^ (8 * 4) := by omega
  have hdl32 : d.length < 2 ^ 32 := by omega
  -- the encoder output
  have hww : r.wav_write = some (wavFileOf r d) := by
    simp only [Wavetable.wav_write, hd]
    rw [if_pos ⟨haf, hch, hsr, hbs, hba, hbi, hK32, hdl32, by omega⟩, wavFileOf]
  -- byte positions in the output
  have D0 : (wavFileOf r d).drop 0 = [82, 73, 70, 70] ++
      (toBytesLE 4 (44 + r.clmData.length + d.length) ++ ([87, 65, 86, 69] ++
      ([102, 109, 116, 32] ++ ([16, 0, 0, 0] ++
      (toBytesLE 2 r.fmt_audio_format ++ (toBytesLE 2 r.fmt_channels ++
      (toBytesLE 4 r.fmt_sample_rate ++ (toBytesLE 4 r.fmt_bytes_p_sec ++
      (toBytesLE 2 r.fmt_bytes_p_block ++ (toBytesLE 2 r.fmt_bits_p_sample ++
      ([99, 108, 109, 32] ++ (toBytesLE 4 r.clmData.length ++ (r.clmData ++
      ([100, 97, 116, 97] ++ (toBytesLE 4 d.length ++ (d ++ [])))))))))))))))) := by
    rw [List.drop_zero, wavFileOf]
    simp [List.append_assoc]
  have D1 := drop_chain _ _ _ _ 4 D0 rfl
  have D2 := drop_chain _ _ _ _ 4 D1 (toBytesLE_length 4 _)
  have D3 := drop_chain _ _ _ _ 4 D2 rfl
  have D4 := drop_chain _ _ _ _ 4 D3 rfl
  have D5 := drop_chain _ _ _ _ 4 D4 rfl
  have D6 := drop_chain _ _ _ _ 2 D5 (toBytesLE_length 2 _)
  have D7 := drop_chain _ _ _ _ 2 D6 (toBytesLE_length 2 _)
  have D8 := drop_chain _ _ _ _ 4 D7 (toBytesLE_length 4 _)
  have D9 := drop_chain _ _ _ _ 4 D8 (toBytesLE_length 4 _)
  have D10 := drop_chain _ _ _ _ 2 D9 (toBytesLE_length 2 _)
  have D11 := drop_chain _ _ _ _ 2 D10 (toBytesLE_length 2 _)
  have D12 := drop_chain _ _ _ _ 4 D11 rfl
  have D13 := drop_chain _ _ _ _ 4 D12 (toBytesLE_length 4 _)
  have D14 := drop_chain _ _ _ _ r.clmData.length D13 rfl
  have D15 := drop_chain _ _ _ _ 4 D14 rfl
  have D16 := drop_chain _ _ _ _ 4 D15 (toBytesLE_length 4 _)
  have D17 := drop_chain _ _ _ _ d.length D16 rfl
  -- total length
  have hlen52 : (wavFileOf r d).length = 52 + r.clmData.length + d.length := by
    rw [wavFileOf]
    simp [toBytesLE_length]
    omega
  have hfuel : (wavFileOf r d).length + 1 =
      ((wavFileOf r d).length - 4) + 1 + 1 + 1 + 1 + 1 := by omega
  refine ⟨wavFileOf r d,
    { data_samples := some d
      fmt_audio_format := r.fmt_audio_format
      fmt_bits_p_sample := r.fmt_bits_p_sample
      fmt_bytes_p_block := r.fmt_bytes_p_block
      fmt_bytes_p_sec := r.fmt_bytes_p_sec
      fmt_channels := r.fmt_channels
      fmt_sample_rate := r.fmt_sample_rate
      wave_count := some (pyIntDiv d.length (w * r.fmt_bytes_p_block))
      wave_size := some w
      wave_interp := r.wave_interp
      wave_vendor := r.wave_vendor ++
        (if r.wave_vendor.length % 2 = 0 then [0] else []) },
    hww, ?_, rfl, rfl, rfl, rfl, rfl, rfl, rfl, rfl, rfl, rfl⟩
  · -- the decoder run
    rw [Wavetable.wav_import, hfuel]
    -- iteration 1: RIFF
    rw [wavImportLoop_step, sread_at _ _ 4 _ _ D0 rfl]
    dsimp only
    rw [if_neg (by decide)]
    rw [Wavetable.wav_parse_chunk, if_pos (by decide : Wavetable.is_riff [82, 73, 70, 70] = true)]
    dsimp only [sseek]
    rw [sread_at _ _ 4 _ _ D2 rfl]
    dsimp only
    rw [if_neg (by decide : ¬([87, 65, 86, 69] : List Nat) ≠ [87, 65, 86, 69])]
    dsimp only
    rw [show (wavFileOf r d).length - 4 + 4 =
      (wavFileOf r d).length - 4 + 3 + 1 by omega]
    -- iteration 2: fmt
    rw [wavImportLoop_step, sread_at _ _ 4 _ _ D3 rfl]
    dsimp only
    rw [if_neg (by decide)]
    rw [Wavetable.wav_parse_chunk, if_neg (by decide), if_pos (by decide :
      Wavetable.is_fmt [102, 109, 116, 32] = true)]
    dsimp only [sseek]
    rw [sread_at _ _ 2 _ _ D5 (toBytesLE_length 2 _)]
    dsimp only
    rw [sread_at _ _ 2 _ _ D6 (toBytesLE_length 2 _)]
    dsimp only
    rw [sread_at _ _ 4 _ _ D7 (toBytesLE_length 4 _)]
    dsimp only
    rw [sread_at _ _ 4 _ _ D8 (toBytesLE_length 4 _)]
    dsimp only
    rw [sread_at _ _ 2 _ _ D9 (toBytesLE_length 2 _)]
    dsimp only
    rw [sread_at _ _ 2 _ _ D10 (toBytesLE_length 2 _)]
    dsimp only
    rw [fromBytesLE_toBytesLE 2 _ haf2, fromBytesLE_toBytesLE 2 _ hch2,
      fromBytesLE_toBytesLE 4 _ hsr4, fromBytesLE_toBytesLE 4 _ hbs4,
      fromBytesLE_toBytesLE 2 _ hba2, fromBytesLE_toBytesLE 2 _ hbi2]
    -- iteration 3: clm
    rw [wavImportLoop_step, sread_at _ _ 4 _ _ D11 rfl]
    dsimp only
    rw [if_neg (by decide)]
    rw [Wavetable.wav_parse_chunk, if_neg (by decide), if_neg (by decide),
      if_pos (by decide : Wavetable.is_clm [99, 108, 109, 32] = true)]
    rw [sread_at _ _ 4 _ _ D12 (toBytesLE_length 4 _)]
    dsimp only
    rw [fromBytesLE_toBytesLE 4 _ hK4]
    rw [sread_at _ _ r.clmData.length _ _ D13 rfl]
    dsimp only
    rw [hcd37, pyIntOfBytes_natDecimal_four w hw1 hw2, hcd89,
      pyIntOfBytes_digit _ (by omega : r.wave_interp ≤ 9), hcd17]
    dsimp only
    -- iteration 4: data
    rw [wavImportLoop_step, sread_at _ _ 4 _ _ D14 rfl]
    dsimp only
    rw [if_neg (by decide)]
    rw [Wavetable.wav_parse_chunk, if_neg (by decide), if_neg (by decide),
      if_neg (by decide), if_pos (by decide : Wavetable.is_data [100, 97, 116, 97] = true)]
    rw [sread_at _ _ 4 _ _ D15 (toBytesLE_length 4 _)]
    dsimp only
    rw [h0]
    rw [if_neg (by decide : ¬ truthyBytes none = true)]
    rw [fromBytesLE_toBytesLE 4 _ hdl4]
    rw [sread_at _ _ d.length _ _ D16 rfl]
    dsimp only
    -- iteration 5: end of stream
    rw [wavImportLoop_step]
    rw [sread, D17]
    dsimp only
    rw [if_pos (by decide : (([] : List Nat).take 4).length ≠ 4)]
    rw [Wavetable.calc_wave_count]
    dsimp only
    rw [if_neg (Nat.mul_ne_zero (by omega) hba0)]
    simp only [Option.map_some']

/-- Witness instantiating `C1_wav_roundtrip` on the default record with an
empty sample buffer, decoded into a fresh default record. -/
theorem C1_witness :
    ∃ out r1, rC1.wav_write = some out ∧
      Wavetable.initDefaults.wav_import out = some (r1, false) ∧
      r1.data_samples = some [] ∧ r1.wave_size = some 2048 ∧
      r1.wave_interp = rC1.wave_interp ∧
      r1.wave_vendor = rC1.wave_vendor ++
        (if rC1.wave_vendor.length % 2 = 0 then [0] else []) ∧
      r1.fmt_audio_format = rC1.fmt_audio_format ∧
      r1.fmt_channels = rC1.fmt_channels ∧
      r1.fmt_sample_rate = rC1.fmt_sample_rate ∧
      r1.fmt_bytes_p_sec = rC1.fmt_bytes_p_sec ∧
      r1.fmt_bytes_p_block = rC1.fmt_bytes_p_block ∧
      r1.fmt_bits_p_sample = rC1.fmt_bits_p_sample :=
  C1_wav_roundtrip rC1 Wavetable.initDefaults 2048 [] rfl rfl
    (by decide) (by decide) (by decide) (by decide) (by decide)
    (by decide) (by decide) (by decide) (by decide) (by decide)
    (by decide) rfl
